import Mathlib

/-!
Shallow embedding of the tender-position matching service (Python repository
`tender_positions_match_service`) and verification of the frozen claims about
its specification.

Conventions of the embedding:
* Python floats are modelled as rationals (`ℚ`); all score arithmetic in the
  source uses small decimal literals, which `ℚ` represents exactly.
* Python strings are Lean `String`s.  `str(x)` applied to an optional value is
  modelled by `pyStr` (Python renders `None` as `"None"`).
* Python dictionaries used with insertion-order iteration are modelled as
  association lists with overwrite-in-place insertion (`dictInsert`).
* `difflib.SequenceMatcher(None, a, b).ratio()` is an external library
  function; it is passed as a parameter `ratio : String → String → ℚ`
  (bounded in `[0,1]` where a proof needs that fact).
* `asyncio.gather` dispatches one task per item and returns results indexed by
  task position; the scheduler's completion order is modelled explicitly as a
  list of slot indices (`collectByIndex`) so that order-independence is a
  provable statement rather than an assumption.
-/

namespace TenderMatch

/-! ## Basic string helpers (Python `in`, `lower`, `strip`) -/

/-- Test whether `a` is a prefix of `b` (character lists). -/
def listPrefixEq : List Char → List Char → Bool
  | [], _ => true
  | _ :: _, [] => false
  | a :: as, b :: bs => a == b && listPrefixEq as bs

/-- Test whether `a` occurs as a contiguous run inside `b`
(Python `a in b` on strings; the empty string occurs in everything). -/
def listInfixEq : List Char → List Char → Bool
  | a, [] => a.isEmpty
  | a, c :: cs => listPrefixEq a (c :: cs) || listInfixEq a cs

/-- Python `a in b` for strings (substring containment). -/
def strIn (a b : String) : Bool := listInfixEq a.data b.data

/-- Python `s.lower()`.  (ASCII case folding; the source's data is already
lower-case Cyrillic or ASCII wherever a claim evaluates it.) -/
def pyLower (s : String) : String := ⟨s.data.map Char.toLower⟩

/-- Drop leading whitespace from a character list. -/
def dropLeadingWs : List Char → List Char
  | [] => []
  | c :: cs => if c.isWhitespace then dropLeadingWs cs else c :: cs

/-- Python `s.strip()`: drop whitespace from both ends. -/
def pyStrip (s : String) : String :=
  ⟨(dropLeadingWs (dropLeadingWs s.data.reverse).reverse)⟩

/-- Python `str(x)` on an optional string (`str(None) = "None"`). -/
def pyStr : Option String → String
  | none => "None"
  | some s => s

/-! ## Association lists modelling Python dicts (insertion order kept) -/

/-- Python `d[k] = v`: overwrite in place if the key is present, else append. -/
def dictInsert (d : List (String × α)) (k : String) (v : α) : List (String × α) :=
  if d.any (fun p => p.1 == k) then
    d.map (fun p => if p.1 == k then (k, v) else p)
  else
    d ++ [(k, v)]

/-- Python `k in d`. -/
def dictContains (d : List (String × α)) (k : String) : Bool :=
  d.any (fun p => p.1 == k)

/-- Python `d[k]` (as `Option`, last written value). -/
def dictGet (d : List (String × α)) (k : String) : Option α :=
  (d.find? (fun p => p.1 == k)).map Prod.snd

/-! ## Numeric-literal scanning shared by both condition parsers

Implements the effect of the regexes `\d+(?:\.\d+)?` used by
`EnhancedAttributeMatcher._parse_numeric_condition` and
`TenderMatchingService.parse_numeric_condition`. -/

/-- Greedily take leading decimal digits. -/
def takeDigits : List Char → List Char × List Char
  | [] => ([], [])
  | c :: cs =>
    if c.isDigit then
      let (d, r) := takeDigits cs
      (c :: d, r)
    else
      ([], c :: cs)

/-- Value of a digit list, most significant first. -/
def natOfDigits (ds : List Char) : ℕ :=
  ds.foldl (fun n c => 10 * n + (c.toNat - 48)) 0

/-- Parse `\d+(?:\.\d+)?` at the head of the input; returns the value and the
unconsumed rest.  The optional fraction is taken only when a digit follows the
dot, matching the regex. -/
def parseNum (cs : List Char) : Option (ℚ × List Char) :=
  let (ds, r) := takeDigits cs
  if ds.isEmpty then none
  else
    match r with
    | '.' :: r2 =>
      let (fs, r3) := takeDigits r2
      if fs.isEmpty then some ((natOfDigits ds : ℚ), r)
      else some ((natOfDigits ds : ℚ) + (natOfDigits fs : ℚ) / (10 : ℚ) ^ fs.length, r3)
    | _ => some ((natOfDigits ds : ℚ), r)

/-- Skip `\s*`. -/
def skipWs : List Char → List Char
  | [] => []
  | c :: cs => if c.isWhitespace then skipWs cs else c :: cs

/-- Model of `re.search`: try the pattern at every start position, leftmost first. -/
def searchPat (pat : List Char → Option α) : List Char → Option α
  | [] => pat []
  | c :: cs =>
    match pat (c :: cs) with
    | some r => some r
    | none => searchPat pat cs

/-- First substring matching `\d+(?:\.\d+)?` (the `re.findall` fallback,
keeping only the first number as the source does). -/
def findFirstNumber : List Char → Option ℚ
  | [] => none
  | c :: cs =>
    if c.isDigit then (parseNum (c :: cs)).map Prod.fst
    else findFirstNumber cs

/-! ## `EnhancedAttributeMatcher._parse_numeric_condition`
(src/services/attribute_matcher.py, lines 374-406).

Patterns, tried in order by `re.search` on the lower-cased stripped value:
`>\s*N\s*и\s*≤\s*N` → `range`; `≥\s*N` → `gte`; `≤\s*N` → `lte`;
`>\s*N` → `gt`; `<\s*N` → `lt`; `^N$` → `eq`; else default operator `eq`
with the first number found anywhere (possibly none). -/

inductive NumOp | range | gte | lte | gt | lt | eq
  deriving DecidableEq, Repr

structure ParsedCond where
  numbers : List ℚ
  operator : NumOp
  deriving DecidableEq, Repr

/-- Pattern `>\s*(\d+(?:\.\d+)?)\s*и\s*≤\s*(\d+(?:\.\d+)?)` at one position. -/
def patRangeAt : List Char → Option (ℚ × ℚ)
  | '>' :: rest =>
    match parseNum (skipWs rest) with
    | none => none
    | some (a, r1) =>
      match skipWs r1 with
      | 'и' :: r2 =>
        match skipWs r2 with
        | '≤' :: r3 =>
          match parseNum (skipWs r3) with
          | none => none
          | some (b, _) => some (a, b)
        | _ => none
      | _ => none
  | _ => none

/-- Pattern `c\s*(\d+(?:\.\d+)?)` at one position, for a leading operator
character `c` (`≥`, `≤`, `>`, `<`). -/
def patOpAt (opc : Char) : List Char → Option ℚ
  | [] => none
  | c :: rest =>
    if c == opc then (parseNum (skipWs rest)).map Prod.fst else none

/-- Anchored pattern `^(\d+(?:\.\d+)?)$` (whole string is one number). -/
def patEqFull (cs : List Char) : Option ℚ :=
  match parseNum cs with
  | some (v, []) => some v
  | _ => none

/-- Embedding of `EnhancedAttributeMatcher._parse_numeric_condition`. -/
def parseNumericCondition (value : String) : ParsedCond :=
  let cs := (pyStrip (pyLower value)).data
  match searchPat patRangeAt cs with
  | some (a, b) => ⟨[a, b], .range⟩
  | none =>
    match searchPat (patOpAt '≥') cs with
    | some a => ⟨[a], .gte⟩
    | none =>
      match searchPat (patOpAt '≤') cs with
      | some a => ⟨[a], .lte⟩
      | none =>
        match searchPat (patOpAt '>') cs with
        | some a => ⟨[a], .gt⟩
        | none =>
          match searchPat (patOpAt '<') cs with
          | some a => ⟨[a], .lt⟩
          | none =>
            match patEqFull cs with
            | some a => ⟨[a], .eq⟩
            | none =>
              match findFirstNumber cs with
              | some a => ⟨[a], .eq⟩
              | none => ⟨[], .eq⟩

/-! ## `TenderMatchingService.parse_numeric_condition`
(src/services/tender_matcher.py, lines 46-77).

Anchored patterns (`re.match` with a trailing `$`), tried in order on the
stripped value; an unparsable value degrades to a string comparison. -/

inductive TMCond
  | between_ge_lt (a b : ℚ)
  | between_gt_le (a b : ℚ)
  | between_ge_le (a b : ℚ)
  | gte (a : ℚ)
  | lte (a : ℚ)
  | gt (a : ℚ)
  | lt (a : ℚ)
  | eq (a : ℚ)
  | str
  deriving DecidableEq, Repr

/-- Anchored `^L\s*N\s*и\s*R\s*N$` for leading operator char `L` and second
operator char `R` (the three `between_*` patterns). -/
def patBetweenFull (lc rc : Char) : List Char → Option (ℚ × ℚ)
  | [] => none
  | c :: rest =>
    if c == lc then
      match parseNum (skipWs rest) with
      | none => none
      | some (a, r1) =>
        match skipWs r1 with
        | 'и' :: r2 =>
          match skipWs r2 with
          | c2 :: r3 =>
            if c2 == rc then
              match parseNum (skipWs r3) with
              | some (b, []) => some (a, b)
              | _ => none
            else none
          | [] => none
        | _ => none
    else none

/-- Anchored `^L\s*N$` for a leading operator char `L`. -/
def patOpFull (opc : Char) : List Char → Option ℚ
  | [] => none
  | c :: rest =>
    if c == opc then
      match parseNum (skipWs rest) with
      | some (a, []) => some a
      | _ => none
    else none

/-- Embedding of `TenderMatchingService.parse_numeric_condition`. -/
def parseNumericConditionTM (value : String) : TMCond :=
  if value == "" then .str
  else
    let cs := (pyStrip value).data
    match patBetweenFull '≥' '<' cs with
    | some (a, b) => .between_ge_lt a b
    | none =>
      match patBetweenFull '>' '≤' cs with
      | some (a, b) => .between_gt_le a b
      | none =>
        match patBetweenFull '≥' '≤' cs with
        | some (a, b) => .between_ge_le a b
        | none =>
          match patOpFull '≥' cs with
          | some a => .gte a
          | none =>
            match patOpFull '≤' cs with
            | some a => .lte a
            | none =>
              match patOpFull '>' cs with
              | some a => .gt a
              | none =>
                match patOpFull '<' cs with
                | some a => .lt a
                | none =>
                  match patEqFull cs with
                  | some a => .eq a
                  | none => .str

/-- First captured number of a parsed condition (Python `product_val1` /
`tender_val1`). -/
def tmFirstVal : TMCond → ℚ
  | .between_ge_lt a _ => a
  | .between_gt_le a _ => a
  | .between_ge_le a _ => a
  | .gte a => a
  | .lte a => a
  | .gt a => a
  | .lt a => a
  | .eq a => a
  | .str => 0

/-- Second captured number of a between condition (Python `tender_val2`). -/
def tmSecondVal : TMCond → ℚ
  | .between_ge_lt _ b => b
  | .between_gt_le _ b => b
  | .between_ge_le _ b => b
  | _ => 0

/-- Embedding of `TenderMatchingService.check_numeric_match`
(src/services/tender_matcher.py, lines 79-116).  A claim-relevant detail:
for `eq` tender conditions the product value is compared with `==`, exact
equality, with no tolerance.  The Python conditional expression on line 114
returns a float whose truthiness is taken by the caller; it is modelled by
the corresponding boolean. -/
def checkNumericMatch (tenderValue productValue : String) : Bool :=
  if tenderValue == "" || productValue == "" then false
  else
    let top := parseNumericConditionTM tenderValue
    let pop := parseNumericConditionTM productValue
    match top, pop with
    | .str, _ => pyLower tenderValue == pyLower productValue
    | _, .str => pyLower tenderValue == pyLower productValue
    | .eq t, _ => decide (tmFirstVal pop = t)
    | .gte t, _ => decide (t ≤ tmFirstVal pop)
    | .lte t, _ => decide (tmFirstVal pop ≤ t)
    | .gt t, _ => decide (t < tmFirstVal pop)
    | .lt t, _ => decide (tmFirstVal pop < t)
    | .between_ge_lt a b, .eq c => decide (a ≤ c ∧ c < b)
    | .between_gt_le a b, .eq c => decide (a < c ∧ c ≤ b)
    | .between_ge_le a b, .eq c => decide (a ≤ c ∧ c ≤ b)
    | _, .gte c => decide (tmFirstVal top ≤ c)
    | _, .lte c =>
      if tmSecondVal top ≠ 0 then decide (c ≤ tmSecondVal top)
      else decide (tmFirstVal top ≠ 0)
    | _, _ => false

/-! ## Data model (src/models/tender.py and the catalog store documents)

Only the fields the matching engine reads are carried.  `Option String`
distinguishes Python `None` from an empty string where the source
distinguishes them. -/

/-- A tender characteristic (`TenderCharacteristic`). -/
structure TChar where
  name : String
  value : Option String
  unit : String
  ctype : Option String
  required : Bool
  deriving DecidableEq, Repr

/-- A standardized product attribute (one entry of
`standardized_attributes`). -/
structure PAttr where
  standard_name : String
  standard_value : Option String
  unit : String
  deriving DecidableEq, Repr

/-! ## `EnhancedAttributeMatcher` (src/services/attribute_matcher.py)

Weights: exact 1.0, synonym 0.9, partial 0.7, fuzzy 0.6, none 0.0.
Thresholds: fuzzy_name 0.8, fuzzy_value 0.85, numeric_tolerance 0.1. -/

/-- Value-synonym table of `EnhancedAttributeMatcher.__init__`. -/
def valueSynonyms : List (String × List String) :=
  [ ("черный", ["черная", "черное", "black", "темный"])
  , ("белый", ["белая", "белое", "white", "светлый"])
  , ("красный", ["красная", "красное", "red", "алый"])
  , ("синий", ["синяя", "синее", "blue", "голубой"])
  , ("зеленый", ["зеленая", "зеленое", "green"])
  , ("да", ["yes", "есть", "присутствует", "имеется", "+"])
  , ("нет", ["no", "отсутствует", "без", "-"])
  , ("а4", ["a4", "а-4", "a-4", "210x297"])
  , ("а3", ["a3", "а-3", "a-3", "297x420"]) ]

/-- Unit-conversion table of `EnhancedAttributeMatcher.__init__`
(linear factors). -/
def unitConversions : List (String × List (String × ℚ)) :=
  [ ("мм", [("см", 1/10), ("м", 1/1000)])
  , ("см", [("мм", 10), ("м", 1/100)])
  , ("м", [("мм", 1000), ("см", 100)])
  , ("г", [("кг", 1/1000)])
  , ("кг", [("г", 1000)]) ]

/-- Outcome of one value comparison (the dicts returned by
`_match_numeric_value` / `_match_categorical_value`). -/
structure ValueMatch where
  matched : Bool
  score : ℚ
  confidence : ℚ
  deriving DecidableEq, Repr

/-- Embedding of `EnhancedAttributeMatcher._convert_units`
(lines 408-424): multiply the parsed numbers by the conversion factor when a
direct conversion exists, otherwise leave them unchanged. -/
def convertUnits (p : ParsedCond) (fromUnit toUnit : String) : ParsedCond :=
  let fromU := pyLower fromUnit
  let toU := pyLower toUnit
  if fromU == toU then p
  else
    match dictGet unitConversions fromU with
    | none => p
    | some tbl =>
      match dictGet tbl toU with
      | none => p
      | some factor => { p with numbers := p.numbers.map (· * factor) }

/-- Embedding of `EnhancedAttributeMatcher._match_numeric_value`
(lines 254-319).  Parses both values, converts the product's units when both
units are known and differ, then evaluates the tender condition against the
first parsed product number.  For a bare equality the match uses a relative
tolerance of 0.1 — with the relative difference defined as 0 when the tender
number is 0. -/
def matchNumericValue (tenderValue productValue tenderUnit productUnit : String) :
    ValueMatch :=
  let tenderParsed := parseNumericCondition tenderValue
  let productParsed := parseNumericCondition productValue
  if tenderParsed.numbers.isEmpty || productParsed.numbers.isEmpty then
    ⟨false, 0, 0⟩
  else
    let productParsed :=
      if tenderUnit ≠ "" ∧ productUnit ≠ "" ∧ tenderUnit ≠ productUnit then
        convertUnits productParsed productUnit tenderUnit
      else productParsed
    let tenderNum := tenderParsed.numbers.headD 0
    let productNum := productParsed.numbers.headD 0
    let matched :=
      match tenderParsed.operator with
      | .gte => decide (tenderNum ≤ productNum)
      | .lte => decide (productNum ≤ tenderNum)
      | .gt => decide (tenderNum < productNum)
      | .lt => decide (productNum < tenderNum)
      | .range =>
        match tenderParsed.numbers with
        | minVal :: maxVal :: _ => decide (minVal ≤ productNum ∧ productNum ≤ maxVal)
        | _ => false
      | .eq =>
        let diff := if tenderNum ≠ 0 then |productNum - tenderNum| / tenderNum else 0
        decide (diff ≤ 1/10)
    ⟨matched, if matched then 1 else 0, if matched then 9/10 else 8/10⟩

/-- Embedding of `EnhancedAttributeMatcher._match_categorical_value`
(lines 321-372): exact match, then synonym table, then substring containment
(only for terms longer than 3 characters), then a fuzzy ratio against the
0.85 threshold. -/
def matchCategoricalValue (ratio : String → String → ℚ)
    (tenderValue productValue : String) : ValueMatch :=
  let tenderLower := pyStrip (pyLower tenderValue)
  let productLower := pyStrip (pyLower productValue)
  if tenderLower == productLower then ⟨true, 1, 1⟩
  else if valueSynonyms.any (fun p =>
      let allValues := p.1 :: p.2
      allValues.contains tenderLower && allValues.contains productLower) then
    ⟨true, 9/10, 95/100⟩
  else if 3 < tenderLower.length ∧
      (strIn tenderLower productLower || strIn productLower tenderLower) then
    ⟨true, 7/10, 85/100⟩
  else if 85/100 ≤ ratio tenderLower productLower then
    ⟨true, 6/10, ratio tenderLower productLower⟩
  else ⟨false, 0, 9/10⟩

/-- Embedding of `EnhancedAttributeMatcher._compare_names` (lines 238-252):
exact 1.0, substring containment 0.9, else the fuzzy similarity ratio. -/
def compareNames (ratio : String → String → ℚ) (name1 name2 : String) : ℚ :=
  if name1 == name2 then 1
  else if strIn name1 name2 || strIn name2 name1 then 9/10
  else ratio name1 name2

/-- Result of matching one characteristic (`AttributeMatchResult`). -/
structure AttrMatchResult where
  matched : Bool
  score : ℚ
  confidence : ℚ
  deriving DecidableEq, Repr

/-- Best candidate tracked while scanning the product attributes. -/
structure BestCand where
  combined : ℚ
  vmatched : Bool
  vconf : ℚ
  deriving DecidableEq, Repr

/-- Value comparison for one candidate attribute: the quantitative branch
uses the numeric condition matcher, the qualitative branch the categorical
matcher, on the stripped stringified values (lines 196-203). -/
def candidateValueMatch (ratio : String → String → ℚ) (tenderChar : TChar)
    (attr : PAttr) : ValueMatch :=
  if tenderChar.ctype == some "Количественная" then
    matchNumericValue (pyStrip (pyStr tenderChar.value))
      (pyStrip (pyStr attr.standard_value)) tenderChar.unit attr.unit
  else
    matchCategoricalValue ratio (pyStrip (pyStr tenderChar.value))
      (pyStrip (pyStr attr.standard_value))

/-- One iteration of the attribute scan of
`_match_single_characteristic` (lines 188-215): attributes whose name
similarity reaches 0.8 are eligible; the running best is replaced on strict
improvement of `name_similarity * value_score`. -/
def scanStep (ratio : String → String → ℚ) (tenderChar : TChar)
    (st : ℚ × Option BestCand) (attr : PAttr) : ℚ × Option BestCand :=
  let nameSimilarity := compareNames ratio (pyLower (pyStrip tenderChar.name))
    (pyLower (pyStrip attr.standard_name))
  if 8/10 ≤ nameSimilarity then
    let valueMatch := candidateValueMatch ratio tenderChar attr
    let combined := nameSimilarity * valueMatch.score
    if st.1 < combined then
      (combined, some ⟨combined, valueMatch.matched, valueMatch.confidence⟩)
    else st
  else st

/-- Embedding of `EnhancedAttributeMatcher._match_single_characteristic`
(lines 168-236).  Scans the product attributes with `scanStep`; a best
eligible pair whose value matched decides a positive outcome with the
combined score. -/
def matchSingleCharacteristic (ratio : String → String → ℚ) (tenderChar : TChar)
    (productAttrs : List PAttr) : AttrMatchResult :=
  if pyLower (pyStrip tenderChar.name) == "" then ⟨false, 0, 0⟩
  else
    let best := productAttrs.foldl (scanStep ratio tenderChar)
      ((0 : ℚ), (none : Option BestCand))
    match best.2 with
    | some b => if b.vmatched then ⟨true, b.combined, b.vconf⟩ else ⟨false, 0, 8/10⟩
    | none => ⟨false, 0, 8/10⟩

/-- Result of `EnhancedAttributeMatcher.match_characteristics` (the fields of
the returned dict that the engine reads; the per-characteristic detail
records are not carried). -/
structure MatchCharsResult where
  is_suitable : Bool
  match_score : ℚ
  confidence : ℚ
  matched_required : ℕ
  total_required : ℕ
  deriving DecidableEq, Repr

/-- Embedding of `EnhancedAttributeMatcher.match_characteristics`
(lines 69-166).  With zero tender characteristics the product is suitable
with score 1.0; otherwise required characteristics contribute their full
score and optional ones half, divided by the total number of
characteristics; the product is suitable when all required characteristics
matched. -/
def matchCharacteristics (ratio : String → String → ℚ) (tenderChars : List TChar)
    (productAttrs : List PAttr) : MatchCharsResult :=
  if tenderChars.isEmpty then
    ⟨true, 1, 1, 0, 0⟩
  else
    let requiredChars := tenderChars.filter (fun c => c.required)
    let optionalChars := tenderChars.filter (fun c => !c.required)
    let reqResults := requiredChars.map (fun c => matchSingleCharacteristic ratio c productAttrs)
    let optResults := optionalChars.map (fun c => matchSingleCharacteristic ratio c productAttrs)
    let matchedRequired := (reqResults.filter (fun r => r.matched)).length
    let matchedScore :=
      (reqResults.map (fun r => if r.matched then r.score else 0)).sum +
      (optResults.map (fun r => if r.matched then r.score * (1/2) else 0)).sum
    let totalConfidence :=
      (reqResults.map (fun r => r.confidence)).sum +
      (optResults.map (fun r => r.confidence * (1/2))).sum
    let totalChars : ℚ := tenderChars.length
    { is_suitable := matchedRequired == requiredChars.length
    , match_score := matchedScore / totalChars
    , confidence := totalConfidence / totalChars
    , matched_required := matchedRequired
    , total_required := requiredChars.length }

/-! ## Tender-side data model (src/models/tender.py) -/

/-- A supplier nested in a catalog product; each offer is the list of its
price values (`offer['price'][i]['price']`). -/
structure PSupplier where
  supplier_key : String
  supplier_name : String
  supplier_offers : List (List ℚ)
  deriving DecidableEq, Repr

/-- A deduplicated catalog product as read by the engine: identity hash,
classification code, display fields, standardized attributes, suppliers, and
the optional scores attached by the enhanced search pipeline
(`semantic_score`, `weighted_score`). -/
structure PProduct where
  product_hash : String
  okpd2_code : String
  okpd2_name : String
  sample_title : Option String
  sample_brand : Option String
  standardized_attributes : List PAttr
  unique_suppliers : List PSupplier
  semantic_score : Option ℚ
  weighted_score : Option ℚ
  deriving DecidableEq, Repr

/-- A tender line item (`TenderItem`); `unitPrice` carries the `amount` of
the unit-price dict. -/
structure TenderItem where
  id : Option Int
  name : Option String
  okpd2Code : Option String
  unitPrice : Option ℚ
  characteristics : List TChar
  deriving DecidableEq, Repr

/-- A matched supplier in the result (`MatchedSupplier`; contact fields and
offers are dropped, they are copied through unchanged). -/
structure MatchedSupplier where
  supplier_key : String
  supplier_name : String
  match_score : ℚ
  deriving DecidableEq, Repr

/-- A matched product in the result (`MatchedProduct`). -/
structure MatchedProduct where
  product_hash : String
  okpd2_code : String
  match_score : ℚ
  matched_suppliers : List MatchedSupplier
  total_suppliers : ℕ
  deriving DecidableEq, Repr

/-- One tender item's outcome (`TenderItemMatch`). -/
structure TenderItemMatch where
  tender_item_id : Option Int
  tender_item_name : String
  okpd2_code : String
  matched_products : List MatchedProduct
  total_matches : ℕ
  best_match_score : ℚ
  processing_status : String
  error_message : Option String
  deriving DecidableEq, Repr

instance : Inhabited TenderItemMatch :=
  ⟨⟨none, "", "", [], 0, 0, "", none⟩⟩

/-- Whole-tender outcome (`TenderMatchingResult`; the summary statistics and
timestamps are not carried — no claim reads them). -/
structure TenderMatchingResult where
  total_items : ℕ
  matched_items : ℕ
  item_matches : List TenderItemMatch
  deriving DecidableEq, Repr

/-- Python truthiness fallback `x if x else d` for an optional string. -/
def pyOrDefault (o : Option String) (d : String) : String :=
  match o with
  | some s => if s == "" then d else s
  | none => d

/-! ## `TenderMatchingService.calculate_match_score` legacy branch
(src/services/tender_matcher.py, lines 140-256) -/

/-- Contribution of one tender characteristic (an entry of the
insertion-ordered `tender_chars` dict) to the legacy soft score. -/
def legacyCharContribution (productAttrsD : List (String × PAttr))
    (charName : String) (ch : TChar) : ℚ :=
  match dictGet productAttrsD charName with
  | none => 0
  | some attr =>
    let scoreWeight : ℚ := if ch.required then 1 else 1/2
    if ch.ctype == some "Количественная" && (match ch.value with
        | some s => s ≠ ""
        | none => false : Bool) then
      match attr.standard_value with
      | none => 0
      | some pv =>
        if checkNumericMatch (ch.value.getD "") pv then scoreWeight
        else scoreWeight * (2/10)
    else
      match ch.value with
      | none => 0
      | some v =>
        let tenderVal := pyLower (pyStrip v)
        let productVal := pyLower (pyStrip (pyStr attr.standard_value))
        if tenderVal == productVal || strIn "эквивалент" tenderVal ||
            strIn tenderVal productVal || strIn productVal tenderVal then
          scoreWeight
        else scoreWeight * (1/10)

/-- Embedding of the legacy branch of
`TenderMatchingService.calculate_match_score`: with no characteristics the
score is the fixed 0.5 baseline; otherwise characteristics are deduplicated
by name into a dict, each contributes at most its weight (required 1.0,
optional 0.5, with partial credit 0.2/0.1 for value mismatches), and the
final score is `0.3 + 0.7 * (total / count)` (`0.6` if every characteristic
name was empty). -/
def calculateMatchScoreLegacy (item : TenderItem) (product : PProduct) : ℚ :=
  if item.characteristics.isEmpty then 1/2
  else
    let tenderCharsD := item.characteristics.foldl
      (fun d ch => if ch.name ≠ "" then dictInsert d ch.name ch else d) []
    let productAttrsD := product.standardized_attributes.foldl
      (fun d a => if a.standard_name ≠ "" then dictInsert d a.standard_name a else d) []
    let totalScore :=
      (tenderCharsD.map (fun p => legacyCharContribution productAttrsD p.1 p.2)).sum
    let totalCharacteristics := tenderCharsD.length
    if 0 < totalCharacteristics then
      3/10 + (totalScore / totalCharacteristics) * (7/10)
    else 6/10

/-- Embedding of `TenderMatchingService.calculate_match_score`
(lines 118-256): the enhanced matcher is used when semantic search is
enabled (score 0.0 when the product is not suitable), else the legacy soft
scoring. -/
def calculateMatchScore (enhanced : Bool) (ratio : String → String → ℚ)
    (item : TenderItem) (product : PProduct) : ℚ :=
  if enhanced then
    let r := matchCharacteristics ratio item.characteristics product.standardized_attributes
    if r.is_suitable then r.match_score else 0
  else
    calculateMatchScoreLegacy item product

/-! ## Supplier price bonus (both item-matching paths) -/

/-- Embedding of `TenderMatchingService._get_best_supplier_price`
(lines 580-593) and the identical inline loop of the standard path: the
minimum price across all offers (first minimum kept). -/
def bestSupplierPrice (offers : List (List ℚ)) : Option ℚ :=
  offers.foldl
    (fun best prices =>
      prices.foldl
        (fun b p =>
          match b with
          | none => some p
          | some bb => if p < bb then some p else some bb)
        best)
    none

/-- Embedding of the supplier price-bonus step, identical in
`_match_tender_item_standard` (lines 356-365) and
`_match_tender_item_enhanced` (lines 515-521): when a best price is known
and truthy (Python `if best_price` — a zero price is falsy and gets no
bonus) and the tender price is positive, a price ratio within
`1 + tolerance/100` multiplies the score by `2 - ratio / maxRatio`;
otherwise the score is unchanged. -/
def applyPriceBonus (score : ℚ) (bestPrice : Option ℚ) (tenderPrice : ℚ)
    (tolerancePercent : ℚ) : ℚ :=
  match bestPrice with
  | none => score
  | some bp =>
    if bp ≠ 0 ∧ 0 < tenderPrice then
      let priceRatio := bp / tenderPrice
      let maxPriceRatio := 1 + tolerancePercent / 100
      if priceRatio ≤ maxPriceRatio then score * (2 - priceRatio / maxPriceRatio)
      else score
    else score

/-! ## Stable descending sort (Python `list.sort(key=..., reverse=True)`) -/

/-- Insert an element into a descending-sorted list after all elements with a
key not below its own (stable insertion). -/
def insertDescBy (key : α → ℚ) (x : α) : List α → List α
  | [] => [x]
  | y :: ys => if key y < key x then x :: y :: ys else y :: insertDescBy key x ys

/-- Stable descending sort by a rational key; extensionally the behaviour of
Python's stable `sort(key=..., reverse=True)`. -/
def sortDescBy (key : α → ℚ) (l : List α) : List α :=
  l.foldl (fun acc x => insertDescBy key x acc) []

/-! ## Item-level matching, standard path
(`_match_tender_item_standard`, lines 301-421) -/

/-- Construct one scored `MatchedProduct` of the standard path: the product
score is `calculate_match_score`, each supplier's score applies the price
bonus to it, and suppliers are sorted descending by score. -/
def scoreProductStandard (enhanced : Bool) (ratio : String → String → ℚ)
    (item : TenderItem) (tolerancePercent : ℚ) (p : PProduct) : MatchedProduct :=
  let matchScore := calculateMatchScore enhanced ratio item p
  let tenderPrice := item.unitPrice.getD 0
  let suppliers := sortDescBy (fun s => s.match_score)
    (p.unique_suppliers.map (fun s =>
      { supplier_key := s.supplier_key
      , supplier_name := s.supplier_name
      , match_score := applyPriceBonus matchScore (bestSupplierPrice s.supplier_offers)
          tenderPrice tolerancePercent }))
  { product_hash := p.product_hash
  , okpd2_code := p.okpd2_code
  , match_score := matchScore
  , matched_suppliers := suppliers
  , total_suppliers := suppliers.length }

/-- Result for an item with no candidate products (`no_matches`). -/
def noMatchesResult (item : TenderItem) : TenderItemMatch :=
  { tender_item_id := some (item.id.getD 0)
  , tender_item_name := pyOrDefault item.name "Без названия"
  , okpd2_code := pyOrDefault item.okpd2Code ""
  , matched_products := []
  , total_matches := 0
  , best_match_score := 0
  , processing_status := "no_matches"
  , error_message := none }

/-- Embedding of the scoring part of `_match_tender_item_standard`: score
every candidate, sort descending, keep the configured top N; the candidate
list is the catalog store's response, passed in explicitly. -/
def matchTenderItemStandardCore (enhanced : Bool) (ratio : String → String → ℚ)
    (item : TenderItem) (products : List PProduct) (maxPerItem : ℕ)
    (tolerancePercent : ℚ) : TenderItemMatch :=
  if products.isEmpty then noMatchesResult item
  else
    let scored := products.map (scoreProductStandard enhanced ratio item tolerancePercent)
    let matchedProducts := (sortDescBy (fun mp => mp.match_score) scored).take maxPerItem
    { tender_item_id := some (item.id.getD 0)
    , tender_item_name := pyOrDefault item.name "Без названия"
    , okpd2_code := pyOrDefault item.okpd2Code ""
    , matched_products := matchedProducts
    , total_matches := matchedProducts.length
    , best_match_score := ((matchedProducts.head?).map (fun mp => mp.match_score)).getD 0
    , processing_status := "success"
    , error_message := none }

/-! ## Item-level matching, enhanced path
(`_match_tender_item_enhanced`, lines 423-578) -/

/-- Construct one scored `MatchedProduct` of the enhanced path (stage 4,
lines 493-555): the final score composes the characteristic score with the
product's `weighted_score` (text) and `semantic_score`, both defaulting to
the neutral 0.5 when absent, as `0.4*m + 0.3*text + 0.3*semantic`; supplier
scores apply the price bonus to this final score. -/
def scoreProductEnhanced (ratio : String → String → ℚ) (item : TenderItem)
    (tolerancePercent : ℚ) (p : PProduct) : MatchedProduct :=
  let matchScore := calculateMatchScore true ratio item p
  let semanticScore := p.semantic_score.getD (1/2)
  let textScore := p.weighted_score.getD (1/2)
  let finalScore := (4/10) * matchScore + (3/10) * textScore + (3/10) * semanticScore
  let tenderPrice := item.unitPrice.getD 0
  let suppliers := sortDescBy (fun s => s.match_score)
    (p.unique_suppliers.map (fun s =>
      { supplier_key := s.supplier_key
      , supplier_name := s.supplier_name
      , match_score := applyPriceBonus finalScore (bestSupplierPrice s.supplier_offers)
          tenderPrice tolerancePercent }))
  { product_hash := p.product_hash
  , okpd2_code := p.okpd2_code
  , match_score := finalScore
  , matched_suppliers := suppliers
  , total_suppliers := suppliers.length }

/-- Embedding of stages 4-5 of `_match_tender_item_enhanced`: of the
candidate list (as annotated by retrieval and the optional semantic stage),
the first 100 products are scored, sorted descending and truncated. -/
def matchTenderItemEnhancedCore (ratio : String → String → ℚ) (item : TenderItem)
    (products : List PProduct) (maxPerItem : ℕ) (tolerancePercent : ℚ) :
    TenderItemMatch :=
  if products.isEmpty then noMatchesResult item
  else
    let scored := (products.take 100).map (scoreProductEnhanced ratio item tolerancePercent)
    let matchedProducts := (sortDescBy (fun mp => mp.match_score) scored).take maxPerItem
    { tender_item_id := some (item.id.getD 0)
    , tender_item_name := pyOrDefault item.name "Без названия"
    , okpd2_code := pyOrDefault item.okpd2Code ""
    , matched_products := matchedProducts
    , total_matches := matchedProducts.length
    , best_match_score := ((matchedProducts.head?).map (fun mp => mp.match_score)).getD 0
    , processing_status := "success"
    , error_message := none }

/-! ## `TenderTermExtractor._build_weighted_terms`
(src/services/term_extractor.py, lines 66-74 and 186-258) -/

/-- Term lists per category (values of the `raw_terms` / `expanded_terms`
dicts built by `_extract_raw_terms` and `_expand_with_synonyms`). -/
structure TermCategories where
  name_terms : List String
  char_names : List String
  required_values : List String
  optional_values : List String
  deriving DecidableEq, Repr

/-- Important-characteristic vocabulary of `TenderTermExtractor.__init__`. -/
def importantChars : List String :=
  [ "цвет", "размер", "габариты", "длина", "ширина", "высота", "диаметр", "толщина"
  , "вес", "масса", "объем", "материал", "тип", "вид", "формат", "модель", "марка"
  , "бренд", "производитель", "мощность", "напряжение", "память", "процессор"
  , "диагональ", "разрешение", "интерфейс", "скорость", "емкость", "плотность" ]

/-- Weight assignment for one category: positional arithmetic decay from
`start` by `step`, at most `maxCount` terms, each weight clamped up to the
1.0 floor (`max(weight, min_weight)`); `guarded` is false only for the name
category, which assigns unconditionally. -/
def assignCategory (d : List (String × ℚ)) (terms : List String) (maxCount : ℕ)
    (start step : ℚ) (guarded : Bool) : List (String × ℚ) :=
  (terms.take maxCount).enum.foldl
    (fun d iw =>
      if guarded && dictContains d iw.2 then d
      else dictInsert d iw.2 (max (start - (iw.1 : ℚ) * step) 1))
    d

/-- Steps 1-4 of `_build_weighted_terms`: name terms (4.0/0.3, max 5),
required values (3.5/0.2, max 5), optional values (2.5/0.2, max 3), then
characteristic names containing an important-vocabulary word (1.8/0.2,
max 4). -/
def assignWeights (expanded : TermCategories) : List (String × ℚ) :=
  let d := assignCategory [] expanded.name_terms 5 4 (3/10) false
  let d := assignCategory d expanded.required_values 5 (35/10) (2/10) true
  let d := assignCategory d expanded.optional_values 3 (25/10) (2/10) true
  let important := expanded.char_names.filter
    (fun t => importantChars.any (fun imp => strIn imp t))
  assignCategory d important 4 (18/10) (2/10) true

/-- Union of the raw (non-synonym) term categories, the `original_terms` set
of `_build_weighted_terms`. -/
def termOriginals (raw : TermCategories) : List String :=
  raw.name_terms ++ raw.char_names ++ raw.required_values ++ raw.optional_values

/-- Synonym down-weighting: terms not among the original raw terms are
multiplied by the fixed 0.7 penalty. -/
def applySynonymPenalty (raw : TermCategories) (d : List (String × ℚ)) :
    List (String × ℚ) :=
  d.map (fun p => if (termOriginals raw).contains p.1 then p else (p.1, p.2 * (7/10)))

/-- Embedding of the `weighted_terms` map built by `_build_weighted_terms`:
weights assigned per category, synonyms penalized, then terms below the 1.0
floor dropped. -/
def buildWeightedTerms (expanded raw : TermCategories) : List (String × ℚ) :=
  (applySynonymPenalty raw (assignWeights expanded)).filter
    (fun p => decide ((1 : ℚ) ≤ p.2))

/-! ## `UniqueProductsMongoStore._calculate_weighted_score`
(src/storage/unique_products_mongo.py, lines 195-238) -/

/-- One pass of `_calculate_weighted_score` over a text field: each weighted
term occurring in the text and not yet matched adds `weight * mult` and is
marked matched. -/
def weightedScorePass (text : String) (mult : ℚ) (terms : List (String × ℚ))
    (st : ℚ × List String) : ℚ × List String :=
  terms.foldl
    (fun st p =>
      if strIn (pyLower p.1) text && !st.2.contains p.1 then
        (st.1 + p.2 * mult, p.1 :: st.2)
      else st)
    st

/-- Embedding of `_calculate_weighted_score`: unnormalized sum of term
weights multiplied by a per-field factor (title 2.0, brand 1.5, okpd2 name
1.2, attribute name 0.8, attribute value 1.0), each term counted once. -/
def calculateWeightedScore (p : PProduct) (terms : List (String × ℚ)) : ℚ :=
  let st := weightedScorePass (pyLower (p.sample_title.getD "")) 2 terms (0, [])
  let st := weightedScorePass (pyLower (p.sample_brand.getD "")) (3/2) terms st
  let st := weightedScorePass (pyLower p.okpd2_name) (12/10) terms st
  let st := p.standardized_attributes.foldl
    (fun st attr =>
      let attrName := pyLower attr.standard_name
      let attrValue := pyLower (pyStr attr.standard_value)
      terms.foldl
        (fun st p =>
          if !st.2.contains p.1 then
            if strIn (pyLower p.1) attrName then (st.1 + p.2 * (8/10), p.1 :: st.2)
            else if strIn (pyLower p.1) attrValue then (st.1 + p.2, p.1 :: st.2)
            else st
          else st)
        st)
    st
  st.1

/-! ## `find_products_by_okpd2_with_fallback`
(src/services/tender_matcher.py, lines 258-276)

The catalog store is modelled as the ordered stream of products that its
unfiltered, suppliers-count-sorted query returns.  The current source — its
docstring says the OKPD2 filtering is "временно отключена" (temporarily
disabled) — issues exactly one query with empty filters and `limit=10`,
ignoring the classification code, `min_results` and `max_results`. -/

/-- Embedding of `find_products_by_okpd2_with_fallback` as written: one
unfiltered store query with limit 10. -/
def findProductsByOkpd2WithFallback (store : List PProduct) (okpd2Code : String)
    (minResults maxResults : ℕ) : List PProduct :=
  store.take 10

/-! ## Parallel tender processing
(`process_tender_parallel`, src/services/tender_matcher.py, lines 669-774)

`asyncio.gather(*tasks, return_exceptions=True)` runs one task per batch
element and returns one slot per task, indexed by task position, with
exceptions captured as values.  The scheduler's completion order is modelled
as an explicit list of slot indices: slots are written in completion order,
then read out by task index — exactly the re-assembly the source relies on.
A per-item outcome is an `Except`: `.error` is a task that raised. -/

/-- Conversion of one gathered slot to a `TenderItemMatch`
(lines 713-728): an exception becomes an error-status entry carrying the
message, a normal result is passed through. -/
def handleItemResult (item : TenderItem) : Except String TenderItemMatch → TenderItemMatch
  | .ok m => m
  | .error e =>
    { tender_item_id := item.id
    , tender_item_name := pyOrDefault item.name "Без названия"
    , okpd2_code := pyOrDefault item.okpd2Code ""
    , matched_products := []
    , total_matches := 0
    , best_match_score := 0
    , processing_status := "error"
    , error_message := some e }

/-- Write a value into slot `i` of a slot list (out-of-range writes are
dropped). -/
def setAt : List (Option β) → ℕ → β → List (Option β)
  | [], _, _ => []
  | _ :: xs, 0, b => some b :: xs
  | x :: xs, n + 1, b => x :: setAt xs n b

/-- Fill `n` result slots by writing each completed task's result, in the
given completion order, into the slot of its task index. -/
def collectByIndex (res : ℕ → β) (n : ℕ) (order : List ℕ) : List (Option β) :=
  order.foldl (fun acc j => setAt acc j (res j)) (List.replicate n none)

/-- Result of the task at position `j` of a batch, already converted by
`handleItemResult`. -/
def batchTaskResult (f : TenderItem → Except String TenderItemMatch)
    (batch : List TenderItem) (j : ℕ) : TenderItemMatch :=
  match batch.get? j with
  | some it => handleItemResult it (f it)
  | none => default

/-- One batch of the parallel loop: gather all task results (written in
completion order, read by task index) and convert each slot. -/
def gatherBatch (f : TenderItem → Except String TenderItemMatch)
    (batch : List TenderItem) (order : List ℕ) : List TenderItemMatch :=
  (collectByIndex (batchTaskResult f batch) batch.length order).filterMap id

/-- The batched loop of `process_tender_parallel` (lines 700-735): slices of
`batchSize` items processed in turn, results appended in batch order.
`orders b` is the completion order the scheduler happened to produce for
batch number `b`; the fuel argument is bounded by the item count. -/
def processParallelGo (f : TenderItem → Except String TenderItemMatch)
    (orders : ℕ → List ℕ) (batchSize : ℕ) :
    ℕ → ℕ → List TenderItem → List TenderItemMatch
  | _, _, [] => []
  | 0, _, _ :: _ => []
  | fuel + 1, b, x :: xs =>
    gatherBatch f ((x :: xs).take batchSize) (orders b) ++
      processParallelGo f orders batchSize fuel (b + 1) ((x :: xs).drop batchSize)

/-- Embedding of `process_tender_parallel`: empty tenders return an empty
result; otherwise items are processed in batches of
`min(max_parallel_items, item count)` and the matches aggregated. -/
def processTenderParallel (f : TenderItem → Except String TenderItemMatch)
    (maxParallelItems : ℕ) (orders : ℕ → List ℕ) (items : List TenderItem) :
    TenderMatchingResult :=
  if items.isEmpty then ⟨0, 0, []⟩
  else
    let batchSize := min maxParallelItems items.length
    let allMatches := processParallelGo f orders batchSize items.length 0 items
    { total_items := items.length
    , matched_items := (allMatches.filter (fun m => 0 < m.total_matches)).length
    , item_matches := allMatches }

/-! # Claims -/

/-! ## C1 — zero-characteristics baseline -/

/-- Claim C1, as stated, is false on the code: for a tender item with zero
characteristics `EnhancedAttributeMatcher.match_characteristics` returns
`match_score = 1.0` — a full score, not a baseline that is "neither 0 nor
1.0". -/
theorem claim_C1_counterexample :
    ¬ ((matchCharacteristics (fun _ _ => 0) [] []).match_score ≠ 0 ∧
       (matchCharacteristics (fun _ _ => 0) [] []).match_score ≠ 1) := by
  decide

/-- Claim C1 (amended): with zero tender characteristics the attribute
matcher returns `suitable = true` with score 1.0 for any product, and the
legacy `calculate_match_score` path returns the fixed neutral baseline 0.5
(which is neither 0 nor 1.0); the enhanced `calculate_match_score` branch
accordingly returns 1.0. -/
theorem claim_C1 (ratio : String → String → ℚ) (attrs : List PAttr)
    (item : TenderItem) (product : PProduct)
    (hitem : item.characteristics = []) :
    (matchCharacteristics ratio [] attrs).is_suitable = true ∧
    (matchCharacteristics ratio [] attrs).match_score = 1 ∧
    calculateMatchScoreLegacy item product = 1/2 ∧
    calculateMatchScore true ratio item product = 1 := by
  refine ⟨rfl, rfl, ?_, ?_⟩
  · simp [calculateMatchScoreLegacy, hitem]
  · simp [calculateMatchScore, hitem, matchCharacteristics]

/-- Concrete instance of claim C1 (amended). -/
theorem claim_C1_witness :
    (matchCharacteristics (fun _ _ => 0) [] []).is_suitable = true ∧
    (matchCharacteristics (fun _ _ => 0) [] []).match_score = 1 ∧
    calculateMatchScoreLegacy ⟨none, none, none, none, []⟩
      ⟨"h", "", "", none, none, [], [], none, none⟩ = 1/2 ∧
    calculateMatchScore true (fun _ _ => 0) ⟨none, none, none, none, []⟩
      ⟨"h", "", "", none, none, [], [], none, none⟩ = 1 :=
  claim_C1 (fun _ _ => 0) [] ⟨none, none, none, none, []⟩
    ⟨"h", "", "", none, none, [], [], none, none⟩ rfl

/-! ## C2 — hierarchical resolver -/

/-- A store holding ten distinct products. -/
def sampleStore : List PProduct :=
  (List.range 10).map (fun i => ⟨toString i, "", "", none, none, [], [], none, none⟩)

/-- Evaluation of `find_products_by_okpd2_with_fallback` as currently
written, at a store of ten products with `max_results = 3`: the result has
ten entries (exceeding `max_results`), and it is identical for every
classification code and every `min_results`/`max_results` — the single
unfiltered limit-10 query ignores all of them, so no narrow-to-broad
pattern walk and no `min_results` early stop happens. -/
theorem claim_C2_code_eval :
    (findProductsByOkpd2WithFallback sampleStore "32.99.12" 5 3).length = 10 ∧
    ¬ (findProductsByOkpd2WithFallback sampleStore "32.99.12" 5 3).length ≤ 3 ∧
    ∀ code minResults maxResults,
      findProductsByOkpd2WithFallback sampleStore code minResults maxResults =
        findProductsByOkpd2WithFallback sampleStore "32.99.12" 5 3 :=
  ⟨by decide, by decide, fun _ _ _ => rfl⟩

/-! ## C4 — equality tolerance -/

/-- Claim C4, as stated ("on every numeric-comparison path"), is false: on
the legacy `check_numeric_match` path the candidate 105 is within 10% of the
target 100 but does not match, because that path compares with exact
equality. -/
theorem claim_C4_counterexample :
    ¬ (checkNumericMatch "100" "105" = true ↔ |(105 : ℚ) - 100| / 100 ≤ 1/10) := by
  intro h
  have h1 : checkNumericMatch "100" "105" = false := by decide
  have h2 : |(105 : ℚ) - 100| / 100 ≤ 1/10 := by norm_num
  rw [h1] at h
  exact absurd (h.2 h2) (by decide)

/-- Claim C4 (amended): for a bare-equality condition with target `v ≠ 0`,
the enhanced attribute matcher's numeric path matches a candidate `c` iff
the relative difference `|c - v| / v` is at most 10% (boundary inclusive);
the legacy `check_numeric_match` path instead matches iff the candidate
equals the target exactly. -/
theorem claim_C4 (tv pv : String) (v c : ℚ) (rest : List ℚ)
    (htv : parseNumericCondition tv = ⟨[v], .eq⟩)
    (hpv : (parseNumericCondition pv).numbers = c :: rest)
    (hv : v ≠ 0) :
    ((matchNumericValue tv pv "" "").matched = true ↔ |c - v| / v ≤ 1/10) ∧
    (∀ tv2 pv2 t p, parseNumericConditionTM tv2 = .eq t →
      parseNumericConditionTM pv2 = .eq p →
      (checkNumericMatch tv2 pv2 = true ↔ p = t)) := by
  constructor
  · simp only [matchNumericValue, htv]
    simp [hpv, hv]
  · intro tv2 pv2 t p htv2 hpv2
    have htv2ne : (tv2 == "") = false := by
      by_cases h : tv2 = ""
      · subst h
        simp [parseNumericConditionTM] at htv2
      · simpa using h
    have hpv2ne : (pv2 == "") = false := by
      by_cases h : pv2 = ""
      · subst h
        simp [parseNumericConditionTM] at hpv2
      · simpa using h
    simp only [checkNumericMatch, htv2ne, hpv2ne, htv2, hpv2]
    simp [tmFirstVal]

/-- Concrete instance of claim C4 (amended): candidate 109 is within 10% of
100 on the enhanced path; on the legacy path 105 does not equal 100. -/
theorem claim_C4_witness :
    (matchNumericValue "100" "109" "" "").matched = true ∧
    checkNumericMatch "100" "105" = false := by
  have h := claim_C4 "100" "109" 100 109 [] (by decide) (by decide) (by norm_num)
  constructor
  · exact h.1.2 (by norm_num)
  · have h2 := (h.2 "100" "105" 100 105 (by decide) (by decide))
    rcases hb : checkNumericMatch "100" "105" with _ | _
    · rfl
    · exact absurd (h2.1 hb) (by norm_num)

/-! ## C5 — range boundary variants -/

/-- Claim C5, as stated, is false on the attribute-matcher path: the
condition "> 5 и ≤ 10" parses there to a plain inclusive `range [5, 10]`
(the exclusivity of `>` is discarded), so the candidate 5 — exactly the
exclusive bound — does match. -/
theorem claim_C5_counterexample :
    parseNumericCondition "> 5 и ≤ 10" = ⟨[5, 10], .range⟩ ∧
    (matchNumericValue "> 5 и ≤ 10" "5" "" "").matched = true := by
  decide

/-- Claim C5 (amended): the legacy `check_numeric_match` path respects the
parsed boundary variant — a condition parsed as `> a и ≤ b` matches a bare
candidate `c` iff `a < c ∧ c ≤ b`, so a candidate equal to the exclusive
bound does not match and one equal to the inclusive bound does — while the
enhanced attribute matcher's path evaluates the same condition as the
inclusive `a ≤ c ∧ c ≤ b`. -/
theorem claim_C5 :
    (∀ tv pv a b c, parseNumericConditionTM tv = .between_gt_le a b →
      parseNumericConditionTM pv = .eq c →
      (checkNumericMatch tv pv = true ↔ a < c ∧ c ≤ b)) ∧
    (∀ tv pv a b c rest, parseNumericCondition tv = ⟨[a, b], .range⟩ →
      (parseNumericCondition pv).numbers = c :: rest →
      ((matchNumericValue tv pv "" "").matched = true ↔ a ≤ c ∧ c ≤ b)) := by
  constructor
  · intro tv pv a b c htv hpv
    have htvne : (tv == "") = false := by
      by_cases h : tv = ""
      · subst h
        simp [parseNumericConditionTM] at htv
      · simpa using h
    have hpvne : (pv == "") = false := by
      by_cases h : pv = ""
      · subst h
        simp [parseNumericConditionTM] at hpv
      · simpa using h
    simp only [checkNumericMatch, htvne, hpvne, htv, hpv]
    simp
  · intro tv pv a b c rest htv hpv
    simp only [matchNumericValue, htv]
    simp [hpv]

/-- Concrete instance of claim C5 (amended): on the legacy path the
inclusive upper bound 10 matches and the exclusive lower bound 5 does not;
on the attribute path the candidate inside the range matches. -/
theorem claim_C5_witness :
    checkNumericMatch "> 5 и ≤ 10" "10" = true ∧
    checkNumericMatch "> 5 и ≤ 10" "5" = false ∧
    (matchNumericValue "> 5 и ≤ 10" "6" "" "").matched = true := by
  refine ⟨?_, ?_, ?_⟩
  · exact (claim_C5.1 "> 5 и ≤ 10" "10" 5 10 10 (by decide) (by decide)).2
      (by norm_num)
  · have h := claim_C5.1 "> 5 и ≤ 10" "5" 5 10 5 (by decide) (by decide)
    rcases hb : checkNumericMatch "> 5 и ≤ 10" "5" with _ | _
    · rfl
    · exact absurd (h.1 hb) (by norm_num)
  · exact (claim_C5.2 "> 5 и ≤ 10" "6" 5 10 6 [] (by decide) (by decide)).2
      (by norm_num)

/-! ## C6 — supplier price bonus -/

/-- Claim C6, as stated, is false at best price 0: the ratio 0 is within the
tolerance, so the claim promises the full 2× bonus, but the code's
truthiness test `if best_price` treats a zero best price as unknown and
leaves the score unchanged. -/
theorem claim_C6_counterexample :
    applyPriceBonus 1 (some 0) 100 20 ≠
      1 * (2 - ((0 : ℚ) / 100) / (1 + (20 : ℚ) / 100)) := by
  norm_num [applyPriceBonus]

/-- Claim C6 (amended): for a known nonzero best price `b` and tender price
`t > 0`, with `maxRatio = 1 + tolerance/100`: if `b/t ≤ maxRatio` the
supplier score is `productScore * (2 - (b/t)/maxRatio)` — exactly 1× at the
boundary — and otherwise the score is unchanged; in particular best price
90 at tender price 100 with 20% tolerance gives the 1.25× multiplier and
best price 150 gives no bonus. -/
theorem claim_C6 (productScore bp tp tol : ℚ) (hbp : bp ≠ 0) (htp : 0 < tp) :
    (bp / tp ≤ 1 + tol / 100 →
      applyPriceBonus productScore (some bp) tp tol =
        productScore * (2 - (bp / tp) / (1 + tol / 100))) ∧
    (¬ bp / tp ≤ 1 + tol / 100 →
      applyPriceBonus productScore (some bp) tp tol = productScore) ∧
    applyPriceBonus productScore (some 90) 100 20 = productScore * (5/4) ∧
    applyPriceBonus productScore (some 150) 100 20 = productScore := by
  refine ⟨?_, ?_, ?_, ?_⟩
  · intro h
    simp [applyPriceBonus, hbp, htp, h]
  · intro h
    simp [applyPriceBonus, hbp, htp, h]
  · norm_num [applyPriceBonus]
  · norm_num [applyPriceBonus]

/-- Concrete instance of claim C6 (amended): the 90-vs-100 example yields
the 1.25× multiplier and the 150-vs-100 example is unchanged. -/
theorem claim_C6_witness :
    applyPriceBonus 1 (some 90) 100 20 = 1 * (5/4) ∧
    applyPriceBonus 1 (some 150) 100 20 = 1 :=
  ⟨(claim_C6 1 90 100 20 (by norm_num) (by norm_num)).2.2.1,
   (claim_C6 1 150 100 20 (by norm_num) (by norm_num)).2.2.2⟩

/-! ## C10 — equality with target zero -/

/-- Claim C10: when the tender condition parses as a bare equality whose
number is 0, the enhanced numeric comparison defines the relative difference
as 0 and therefore matches every product value from which a number could be
extracted, whatever the units. -/
theorem claim_C10 (tv pv tu pu : String) (ns : List ℚ)
    (htv : parseNumericCondition tv = ⟨ns, .eq⟩)
    (h0 : ns.headD 0 = 0) (hns : ns ≠ [])
    (hpv : (parseNumericCondition pv).numbers ≠ []) :
    (matchNumericValue tv pv tu pu).matched = true := by
  simp only [matchNumericValue, htv]
  have hpv2 : (parseNumericCondition pv).numbers.isEmpty = false := by
    cases h : (parseNumericCondition pv).numbers with
    | nil => exact absurd h hpv
    | cons a l => rfl
  cases ns with
  | nil => exact absurd rfl hns
  | cons a l =>
    have ha : a = 0 := by simpa using h0
    subst ha
    simp [hpv2]

/-- Concrete instance of claim C10: the condition "0" accepts the product
value "12345". -/
theorem claim_C10_witness :
    (matchNumericValue "0" "12345" "" "").matched = true :=
  claim_C10 "0" "12345" "" "" [0] (by decide) (by decide) (by decide) (by decide)

/-! ## C9 — weighted-term floor invariant -/

/-- Any property preserved by each fold step holds for the fold. -/
theorem foldl_preserves {α β : Type} {step : β → α → β} {P : β → Prop}
    (hstep : ∀ b a, P b → P (step b a)) :
    ∀ (l : List α) (b : β), P b → P (l.foldl step b) := by
  intro l
  induction l with
  | nil => intro b hb; exact hb
  | cons a l ih => intro b hb; exact ih (step b a) (hstep b a hb)

/-- Dict insertion preserves a pointwise property if the inserted pair has
it. -/
theorem dictInsert_forall {α : Type} {P : String × α → Prop}
    {d : List (String × α)} {k : String} {v : α}
    (hd : ∀ p ∈ d, P p) (hv : P (k, v)) :
    ∀ p ∈ dictInsert d k v, P p := by
  intro p hp
  unfold dictInsert at hp
  split at hp
  · rcases List.mem_map.1 hp with ⟨q, hq, rfl⟩
    by_cases h : q.1 == k
    · simpa [h] using hv
    · simpa [h] using hd q hq
  · rcases List.mem_append.1 hp with h | h
    · exact hd p h
    · rcases List.mem_singleton.1 h with rfl
      exact hv

/-- Every weight that `assignCategory` writes is clamped up to the 1.0
floor. -/
theorem assignCategory_floor {d : List (String × ℚ)} {terms : List String}
    {maxCount : ℕ} {start step : ℚ} {guarded : Bool}
    (hd : ∀ p ∈ d, 1 ≤ p.2) :
    ∀ p ∈ assignCategory d terms maxCount start step guarded, 1 ≤ p.2 := by
  unfold assignCategory
  refine foldl_preserves (P := fun d => ∀ p ∈ d, 1 ≤ p.2) ?_ (terms.take maxCount).enum d hd
  intro b a hb
  dsimp only
  split
  · exact hb
  · exact dictInsert_forall hb (le_max_right _ _)

/-- Every weight assigned by steps 1-4 of `_build_weighted_terms` is at
least the 1.0 floor. -/
theorem assignWeights_floor (expanded : TermCategories) :
    ∀ p ∈ assignWeights expanded, 1 ≤ p.2 := by
  unfold assignWeights
  exact assignCategory_floor (assignCategory_floor (assignCategory_floor
    (assignCategory_floor (by intro p hp; cases hp))))

/-- Claim C9: (i) every term of the final `weighted_terms` map has weight at
least the 1.0 floor; (ii) every assigned weight is already clamped up to the
floor before the synonym penalty; (iii) a term originating from the item's
own raw tokens is never removed by the floor filter; (iv) a term that is
dropped is necessarily a synonym-expansion term (not among the raw tokens)
whose post-penalty weight fell below the floor. -/
theorem claim_C9 (expanded raw : TermCategories) :
    (∀ p ∈ buildWeightedTerms expanded raw, 1 ≤ p.2) ∧
    (∀ p ∈ assignWeights expanded, 1 ≤ p.2) ∧
    (∀ p ∈ applySynonymPenalty raw (assignWeights expanded),
      p.1 ∈ termOriginals raw → p ∈ buildWeightedTerms expanded raw) ∧
    (∀ p ∈ applySynonymPenalty raw (assignWeights expanded),
      p ∉ buildWeightedTerms expanded raw → p.1 ∉ termOriginals raw ∧ p.2 < 1) := by
  have hfloor := assignWeights_floor expanded
  have hkeep : ∀ p ∈ applySynonymPenalty raw (assignWeights expanded),
      p.1 ∈ termOriginals raw → p ∈ buildWeightedTerms expanded raw := by
    intro p hp horig
    unfold applySynonymPenalty at hp
    rcases List.mem_map.1 hp with ⟨q, hq, hqe⟩
    by_cases h : (termOriginals raw).contains q.1
    · rw [if_pos h] at hqe
      subst hqe
      refine List.mem_filter.2 ⟨hp, ?_⟩
      exact decide_eq_true (hfloor q hq)
    · rw [if_neg h] at hqe
      subst hqe
      exact absurd (List.elem_iff.2 horig) h
  refine ⟨?_, hfloor, hkeep, ?_⟩
  · intro p hp
    have := (List.mem_filter.1 hp).2
    exact of_decide_eq_true this
  · intro p hp hdrop
    constructor
    · intro horig
      exact hdrop (hkeep p hp horig)
    · by_contra hlt
      push_neg at hlt
      exact hdrop (List.mem_filter.2 ⟨hp, decide_eq_true hlt⟩)

/-- Concrete instance of claim C9: for the single original name term
"ручка", the assigned weight is the clamped `max (4 - 0*0.3) 1`, the term
survives into the final map, and its final weight is at least the floor. -/
theorem claim_C9_witness :
    ("ручка", max ((4 : ℚ) - 0 * (3/10)) 1) ∈
      buildWeightedTerms ⟨["ручка"], [], [], []⟩ ⟨["ручка"], [], [], []⟩ ∧
    1 ≤ (("ручка", max ((4 : ℚ) - 0 * (3/10)) 1) : String × ℚ).2 := by
  have hpen : ("ручка", max ((4 : ℚ) - 0 * (3/10)) 1) ∈
      applySynonymPenalty ⟨["ручка"], [], [], []⟩
        (assignWeights ⟨["ручка"], [], [], []⟩) := by
    simp [applySynonymPenalty, assignWeights, assignCategory, dictInsert,
      dictContains, termOriginals, importantChars]
  have horig : (("ручка", max ((4 : ℚ) - 0 * (3/10)) 1) : String × ℚ).1 ∈
      termOriginals ⟨["ручка"], [], [], []⟩ := by
    simp [termOriginals]
  have hmem := (claim_C9 ⟨["ручка"], [], [], []⟩ ⟨["ручка"], [], [], []⟩).2.2.1
    _ hpen horig
  exact ⟨hmem, (claim_C9 ⟨["ручка"], [], [], []⟩ ⟨["ручка"], [], [], []⟩).1 _ hmem⟩

/-! ## C3 — score range of returned matched products -/

/-- The numeric value comparison scores 0 or 1. -/
theorem matchNumericValue_score_bounds (tv pv tu pu : String) :
    0 ≤ (matchNumericValue tv pv tu pu).score ∧
    (matchNumericValue tv pv tu pu).score ≤ 1 := by
  unfold matchNumericValue
  set tp := parseNumericCondition tv
  set pp := parseNumericCondition pv
  by_cases h : (tp.numbers.isEmpty || pp.numbers.isEmpty) = true
  · rw [if_pos h]
    norm_num
  · rw [if_neg h]
    dsimp only
    split <;> constructor <;> split_ifs <;> norm_num

/-- The categorical value comparison scores one of 0, 0.6, 0.7, 0.9, 1. -/
theorem matchCategoricalValue_score_bounds (ratio : String → String → ℚ)
    (tv pv : String) :
    0 ≤ (matchCategoricalValue ratio tv pv).score ∧
    (matchCategoricalValue ratio tv pv).score ≤ 1 := by
  unfold matchCategoricalValue
  dsimp only
  split_ifs <;> norm_num

/-- Name similarity lies in `[0,1]` when the fuzzy ratio does. -/
theorem compareNames_bounds {ratio : String → String → ℚ}
    (hr : ∀ a b, 0 ≤ ratio a b ∧ ratio a b ≤ 1) (n1 n2 : String) :
    0 ≤ compareNames ratio n1 n2 ∧ compareNames ratio n1 n2 ≤ 1 := by
  unfold compareNames
  split_ifs with h1 h2
  · norm_num
  · norm_num
  · exact hr n1 n2

/-- The value comparison score of one candidate attribute lies in `[0,1]`. -/
theorem candidateValueMatch_score_bounds (ratio : String → String → ℚ)
    (ch : TChar) (attr : PAttr) :
    0 ≤ (candidateValueMatch ratio ch attr).score ∧
    (candidateValueMatch ratio ch attr).score ≤ 1 := by
  unfold candidateValueMatch
  split
  · exact matchNumericValue_score_bounds _ _ _ _
  · exact matchCategoricalValue_score_bounds _ _ _

/-- The attribute-scan invariant: the running best score stays in `[0,1]`
and the recorded best candidate carries exactly that score. -/
theorem scanStep_preserves {ratio : String → String → ℚ}
    (hr : ∀ a b, 0 ≤ ratio a b ∧ ratio a b ≤ 1) (ch : TChar)
    (st : ℚ × Option BestCand) (attr : PAttr)
    (hst : 0 ≤ st.1 ∧ st.1 ≤ 1 ∧ ∀ b, st.2 = some b → b.combined = st.1) :
    0 ≤ (scanStep ratio ch st attr).1 ∧ (scanStep ratio ch st attr).1 ≤ 1 ∧
      ∀ b, (scanStep ratio ch st attr).2 = some b →
        b.combined = (scanStep ratio ch st attr).1 := by
  have hn := compareNames_bounds hr (pyLower (pyStrip ch.name))
    (pyLower (pyStrip attr.standard_name))
  have hv := candidateValueMatch_score_bounds ratio ch attr
  unfold scanStep
  dsimp only
  split_ifs with h1 h2
  · refine ⟨mul_nonneg hn.1 hv.1, mul_le_one₀ hn.2 hv.1 hv.2, ?_⟩
    intro b hb
    injection hb with hb
    rw [← hb]
  · exact hst
  · exact hst

/-- The single-characteristic match score lies in `[0,1]` when the fuzzy
ratio does. -/
theorem matchSingleCharacteristic_score_bounds {ratio : String → String → ℚ}
    (hr : ∀ a b, 0 ≤ ratio a b ∧ ratio a b ≤ 1) (ch : TChar) (attrs : List PAttr) :
    0 ≤ (matchSingleCharacteristic ratio ch attrs).score ∧
    (matchSingleCharacteristic ratio ch attrs).score ≤ 1 := by
  unfold matchSingleCharacteristic
  by_cases hname : (pyLower (pyStrip ch.name) == "") = true
  · rw [if_pos hname]
    norm_num
  · rw [if_neg hname]
    dsimp only
    have hfold := foldl_preserves
      (P := fun st : ℚ × Option BestCand =>
        0 ≤ st.1 ∧ st.1 ≤ 1 ∧ ∀ b, st.2 = some b → b.combined = st.1)
      (scanStep_preserves hr ch) attrs ((0 : ℚ), (none : Option BestCand))
      ⟨le_refl 0, by norm_num, by simp⟩
    rcases h2 : (List.foldl (scanStep ratio ch)
        ((0 : ℚ), (none : Option BestCand)) attrs).2 with _ | b
    · simp [h2]
    · dsimp only
      split
      · have hc := hfold.2.2 b h2
        exact ⟨hc ▸ hfold.1, hc ▸ hfold.2.1⟩
      · norm_num

/-- The aggregate characteristic match score lies in `[0,1]` when the fuzzy
ratio does. -/
theorem matchCharacteristics_score_bounds {ratio : String → String → ℚ}
    (hr : ∀ a b, 0 ≤ ratio a b ∧ ratio a b ≤ 1)
    (tenderChars : List TChar) (attrs : List PAttr) :
    0 ≤ (matchCharacteristics ratio tenderChars attrs).match_score ∧
    (matchCharacteristics ratio tenderChars attrs).match_score ≤ 1 := by
  unfold matchCharacteristics
  by_cases hempty : tenderChars.isEmpty = true
  · rw [if_pos hempty]
    norm_num
  · rw [if_neg hempty]
    dsimp only
    have hlen : 0 < tenderChars.length := by
      cases tenderChars with
      | nil => exact absurd rfl hempty
      | cons c l => exact Nat.succ_pos _
    have hlenq : (0 : ℚ) < (tenderChars.length : ℚ) := by exact_mod_cast hlen
    set reqChars := tenderChars.filter (fun c => c.required) with hreq
    set optChars := tenderChars.filter (fun c => !c.required) with hopt
    set sumReq := ((reqChars.map (fun c => matchSingleCharacteristic ratio c attrs)).map
      (fun r => if r.matched = true then r.score else 0)).sum with hsr
    set sumOpt := ((optChars.map (fun c => matchSingleCharacteristic ratio c attrs)).map
      (fun r => if r.matched = true then r.score * (1/2) else 0)).sum with hso
    have hreqBound : sumReq ≤ (reqChars.length : ℚ) := by
      have := List.sum_le_card_nsmul
        ((reqChars.map (fun c => matchSingleCharacteristic ratio c attrs)).map
          (fun r => if r.matched = true then r.score else 0)) 1 ?_
      · simpa [hsr, nsmul_eq_mul] using this
      · intro x hx
        rcases List.mem_map.1 hx with ⟨r, hrmem, rfl⟩
        rcases List.mem_map.1 hrmem with ⟨c, hcmem, rfl⟩
        split
        · exact (matchSingleCharacteristic_score_bounds hr c attrs).2
        · norm_num
    have hoptBound : sumOpt ≤ (optChars.length : ℚ) := by
      have := List.sum_le_card_nsmul
        ((optChars.map (fun c => matchSingleCharacteristic ratio c attrs)).map
          (fun r => if r.matched = true then r.score * (1/2) else 0)) 1 ?_
      · simpa [hso, nsmul_eq_mul] using this
      · intro x hx
        rcases List.mem_map.1 hx with ⟨r, hrmem, rfl⟩
        rcases List.mem_map.1 hrmem with ⟨c, hcmem, rfl⟩
        split
        · have h := matchSingleCharacteristic_score_bounds hr c attrs
          nlinarith [h.1, h.2]
        · norm_num
    have hreqNonneg : 0 ≤ sumReq := by
      refine List.sum_nonneg ?_
      intro x hx
      rcases List.mem_map.1 hx with ⟨r, hrmem, rfl⟩
      rcases List.mem_map.1 hrmem with ⟨c, hcmem, rfl⟩
      split
      · exact (matchSingleCharacteristic_score_bounds hr c attrs).1
      · norm_num
    have hoptNonneg : 0 ≤ sumOpt := by
      refine List.sum_nonneg ?_
      intro x hx
      rcases List.mem_map.1 hx with ⟨r, hrmem, rfl⟩
      rcases List.mem_map.1 hrmem with ⟨c, hcmem, rfl⟩
      split
      · have h := matchSingleCharacteristic_score_bounds hr c attrs
        nlinarith [h.1]
      · norm_num
    have hpartition : reqChars.length + optChars.length = tenderChars.length := by
      rw [hreq, hopt]
      exact (List.length_eq_length_filter_add (fun c : TChar => c.required)).symm
    constructor
    · exact div_nonneg (add_nonneg hreqNonneg hoptNonneg) (le_of_lt hlenq)
    · rw [div_le_one hlenq]
      have : (reqChars.length : ℚ) + (optChars.length : ℚ) = (tenderChars.length : ℚ) := by
        exact_mod_cast hpartition
      linarith [hreqBound, hoptBound]

/-- Each legacy per-characteristic contribution lies in `[0,1]`. -/
theorem legacyCharContribution_bounds (d : List (String × PAttr))
    (name : String) (ch : TChar) :
    0 ≤ legacyCharContribution d name ch ∧ legacyCharContribution d name ch ≤ 1 := by
  unfold legacyCharContribution
  cases hget : dictGet d name with
  | none => norm_num
  | some attr =>
    dsimp only
    cases hsv : attr.standard_value <;> cases hv : ch.value <;>
      split_ifs <;> (try norm_num) <;> split_ifs <;> norm_num

/-- The legacy match score lies in `[0,1]`. -/
theorem calculateMatchScoreLegacy_bounds (item : TenderItem) (product : PProduct) :
    0 ≤ calculateMatchScoreLegacy item product ∧
    calculateMatchScoreLegacy item product ≤ 1 := by
  unfold calculateMatchScoreLegacy
  split_ifs with h1
  · norm_num
  · dsimp only
    set d := item.characteristics.foldl
      (fun d ch => if ch.name ≠ "" then dictInsert d ch.name ch else d) [] with hd
    set pd := product.standardized_attributes.foldl
      (fun d a => if a.standard_name ≠ "" then dictInsert d a.standard_name a else d) []
      with hpd
    split_ifs with h2
    · have hcard : (0 : ℚ) < (d.length : ℚ) := by exact_mod_cast h2
      have hbound : (d.map (fun p => legacyCharContribution pd p.1 p.2)).sum ≤
          (d.length : ℚ) := by
        have := List.sum_le_card_nsmul
          (d.map (fun p => legacyCharContribution pd p.1 p.2)) 1 ?_
        · simpa [nsmul_eq_mul] using this
        · intro x hx
          rcases List.mem_map.1 hx with ⟨p, hpmem, rfl⟩
          exact (legacyCharContribution_bounds pd p.1 p.2).2
      have hnonneg : 0 ≤ (d.map (fun p => legacyCharContribution pd p.1 p.2)).sum := by
        refine List.sum_nonneg ?_
        intro x hx
        rcases List.mem_map.1 hx with ⟨p, hpmem, rfl⟩
        exact (legacyCharContribution_bounds pd p.1 p.2).1
      have hratio : (d.map (fun p => legacyCharContribution pd p.1 p.2)).sum /
          (d.length : ℚ) ≤ 1 := by
        rw [div_le_one hcard]
        exact hbound
      have hrationn : 0 ≤ (d.map (fun p => legacyCharContribution pd p.1 p.2)).sum /
          (d.length : ℚ) := div_nonneg hnonneg (le_of_lt hcard)
      constructor <;> nlinarith [hratio, hrationn]
    · norm_num

/-- `calculate_match_score` lies in `[0,1]` on both branches when the fuzzy
ratio does. -/
theorem calculateMatchScore_bounds {ratio : String → String → ℚ}
    (hr : ∀ a b, 0 ≤ ratio a b ∧ ratio a b ≤ 1) (enhanced : Bool)
    (item : TenderItem) (product : PProduct) :
    0 ≤ calculateMatchScore enhanced ratio item product ∧
    calculateMatchScore enhanced ratio item product ≤ 1 := by
  unfold calculateMatchScore
  split
  · dsimp only
    split
    · exact matchCharacteristics_score_bounds hr _ _
    · norm_num
  · exact calculateMatchScoreLegacy_bounds item product

/-- Stable descending insertion introduces no new elements. -/
theorem mem_insertDescBy {α : Type} {key : α → ℚ} {x y : α} :
    ∀ {l : List α}, y ∈ insertDescBy key x l → y = x ∨ y ∈ l := by
  intro l
  induction l with
  | nil =>
    intro h
    unfold insertDescBy at h
    exact Or.inl (List.mem_singleton.1 h)
  | cons z zs ih =>
    intro h
    unfold insertDescBy at h
    split at h
    · rcases List.mem_cons.1 h with h2 | h2
      · exact Or.inl h2
      · exact Or.inr h2
    · rcases List.mem_cons.1 h with h2 | h2
      · exact Or.inr (h2 ▸ List.mem_cons_self z zs)
      · rcases ih h2 with h3 | h3
        · exact Or.inl h3
        · exact Or.inr (List.mem_cons_of_mem z h3)

/-- Auxiliary: elements of the sorting fold come from the accumulator or the
remaining input. -/
theorem mem_sortDescBy_aux {α : Type} {key : α → ℚ} {y : α} :
    ∀ (l acc : List α),
      y ∈ l.foldl (fun acc x => insertDescBy key x acc) acc → y ∈ acc ∨ y ∈ l := by
  intro l
  induction l with
  | nil =>
    intro acc h
    exact Or.inl h
  | cons x xs ih =>
    intro acc h
    rcases ih (insertDescBy key x acc) h with h2 | h2
    · rcases mem_insertDescBy h2 with h3 | h3
      · exact Or.inr (h3 ▸ List.mem_cons_self x xs)
      · exact Or.inl h3
    · exact Or.inr (List.mem_cons_of_mem x h2)

/-- Sorting permutes: every element of the sorted list is in the input. -/
theorem mem_sortDescBy {α : Type} {key : α → ℚ} {y : α} {l : List α}
    (h : y ∈ sortDescBy key l) : y ∈ l := by
  rcases mem_sortDescBy_aux l [] h with h2 | h2
  · simp at h2
  · exact h2

/-- Claim C3 (amended): every matched product returned by the standard
per-item path has its final `match_score` in `[0,1]`; on the enhanced path
the same holds provided the externally attached `weighted_score` and
`semantic_score` annotations lie in `[0,1]` — the raw text `weighted_score`
is an unnormalized sum whose excess over 1 propagates into the final score
unclamped (see the counterexample). -/
theorem claim_C3 {ratio : String → String → ℚ}
    (hr : ∀ a b, 0 ≤ ratio a b ∧ ratio a b ≤ 1) (enhanced : Bool)
    (item : TenderItem) (products : List PProduct) (maxPerItem : ℕ) (tol : ℚ)
    (hscores : ∀ p ∈ products,
      (∀ q, p.weighted_score = some q → 0 ≤ q ∧ q ≤ 1) ∧
      (∀ q, p.semantic_score = some q → 0 ≤ q ∧ q ≤ 1)) :
    (∀ mp ∈ (matchTenderItemStandardCore enhanced ratio item products
        maxPerItem tol).matched_products, 0 ≤ mp.match_score ∧ mp.match_score ≤ 1) ∧
    (∀ mp ∈ (matchTenderItemEnhancedCore ratio item products
        maxPerItem tol).matched_products, 0 ≤ mp.match_score ∧ mp.match_score ≤ 1) := by
  constructor
  · intro mp hmp
    unfold matchTenderItemStandardCore at hmp
    split at hmp
    · simp [noMatchesResult] at hmp
    · dsimp only at hmp
      have h2 := mem_sortDescBy (List.take_subset _ _ hmp)
      rcases List.mem_map.1 h2 with ⟨p, hpmem, rfl⟩
      unfold scoreProductStandard
      dsimp only
      exact calculateMatchScore_bounds hr enhanced item p
  · intro mp hmp
    unfold matchTenderItemEnhancedCore at hmp
    split at hmp
    · simp [noMatchesResult] at hmp
    · dsimp only at hmp
      have h2 := mem_sortDescBy (List.take_subset _ _ hmp)
      rcases List.mem_map.1 h2 with ⟨p, hpmem, rfl⟩
      have hpfull : p ∈ products := List.take_subset _ _ hpmem
      have hm := calculateMatchScore_bounds hr true item p
      have hw : 0 ≤ p.weighted_score.getD (1/2) ∧ p.weighted_score.getD (1/2) ≤ 1 := by
        cases hq : p.weighted_score with
        | none => norm_num
        | some q => simpa using (hscores p hpfull).1 q hq
      have hs : 0 ≤ p.semantic_score.getD (1/2) ∧ p.semantic_score.getD (1/2) ≤ 1 := by
        cases hq : p.semantic_score with
        | none => norm_num
        | some q => simpa using (hscores p hpfull).2 q hq
      unfold scoreProductEnhanced
      dsimp only
      constructor
      · nlinarith [hm.1, hw.1, hs.1]
      · nlinarith [hm.2, hw.2, hs.2]

/-- Claim C3, as stated, is false on the code: `_calculate_weighted_score`
really does produce the unnormalized text score 8 for a product whose title
contains the single query term of weight 4 (doubled for a title hit), and a
product annotated with that score comes back from the enhanced per-item path
with final `match_score = 0.4*1 + 0.3*8 + 0.3*0.5 = 2.95 > 1` — no clamping
happens anywhere. -/
theorem claim_C3_counterexample :
    calculateWeightedScore ⟨"h", "okp", "", some "ручка шариковая", none, [], [], none, none⟩
        [("ручка", 4)] = 8 ∧
    ((matchTenderItemEnhancedCore (fun _ _ => 0) ⟨some 1, some "x", none, none, []⟩
        [⟨"h", "okp", "", some "ручка шариковая", none, [], [], some (1/2), some 8⟩]
        10 20).matched_products.map (fun mp => mp.match_score)) = [59/20] ∧
    ¬ ((59 : ℚ)/20 ≤ 1) := by
  refine ⟨?_, ?_, by norm_num⟩
  · have h1 : strIn (pyLower "ручка") (pyLower "ручка шариковая") = true := by decide
    have h2 : strIn (pyLower "ручка") (pyLower "") = false := by decide
    simp [calculateWeightedScore, weightedScorePass, h1, h2]
    norm_num
  · have htake : ([⟨"h", "okp", "", some "ручка шариковая", none, [], [], some (1/2), some 8⟩] :
        List PProduct).take 100 =
        [⟨"h", "okp", "", some "ручка шариковая", none, [], [], some (1/2), some 8⟩] :=
      List.take_of_length_le (by norm_num)
    simp [matchTenderItemEnhancedCore, htake, scoreProductEnhanced, calculateMatchScore,
      matchCharacteristics, sortDescBy, insertDescBy]
    norm_num

/-- Concrete instance of claim C3 (amended): the standard path on a
one-product store returns the legacy half-score product, inside `[0,1]`. -/
theorem claim_C3_witness :
    0 ≤ ((⟨"h", "okp", 1/2, [], 0⟩ : MatchedProduct)).match_score ∧
    ((⟨"h", "okp", 1/2, [], 0⟩ : MatchedProduct)).match_score ≤ 1 := by
  have hsc : ∀ p ∈ ([⟨"h", "okp", "", none, none, [], [], some (1/2), none⟩] : List PProduct),
      (∀ q, p.weighted_score = some q → 0 ≤ q ∧ q ≤ 1) ∧
      (∀ q, p.semantic_score = some q → 0 ≤ q ∧ q ≤ 1) := by
    intro p hp
    rcases List.mem_singleton.1 hp with rfl
    constructor
    · intro q hq
      simp at hq
    · intro q hq
      simp only [Option.some.injEq] at hq
      rw [← hq]
      norm_num
  have hmem : (⟨"h", "okp", 1/2, [], 0⟩ : MatchedProduct) ∈
      (matchTenderItemStandardCore false (fun _ _ => 0) ⟨none, none, none, none, []⟩
        [⟨"h", "okp", "", none, none, [], [], some (1/2), none⟩] 10 20).matched_products := by
    simp [matchTenderItemStandardCore, scoreProductStandard, calculateMatchScore,
      calculateMatchScoreLegacy, sortDescBy, insertDescBy]
  exact (claim_C3 (fun a b => ⟨le_refl 0, zero_le_one⟩) false
    ⟨none, none, none, none, []⟩
    [⟨"h", "okp", "", none, none, [], [], some (1/2), none⟩] 10 20 hsc).1 _ hmem

/-! ## C7 and C8 — parallel ordering and failure isolation -/

/-- Writing a slot keeps the slot-list length. -/
theorem setAt_length {β : Type} :
    ∀ (l : List (Option β)) (i : ℕ) (b : β), (setAt l i b).length = l.length
  | [], _, _ => rfl
  | _ :: xs, 0, b => rfl
  | x :: xs, n + 1, b => congrArg Nat.succ (setAt_length xs n b)

/-- Reading after a slot write: the written slot holds the new value,
others are unchanged; out-of-range writes change nothing. -/
theorem setAt_get? {β : Type} :
    ∀ (l : List (Option β)) (i k : ℕ) (b : β),
      (setAt l i b).get? k =
        if k = i ∧ i < l.length then some (some b) else l.get? k := by
  intro l
  induction l with
  | nil =>
    intro i k b
    simp [setAt]
  | cons x xs ih =>
    intro i k b
    cases i with
    | zero =>
      cases k with
      | zero => simp [setAt]
      | succ k => simp [setAt]
    | succ i =>
      cases k with
      | zero => simp [setAt]
      | succ k =>
        show (setAt xs i b).get? k = _
        rw [ih i k b]
        simp only [List.length_cons]
        by_cases h1 : k = i ∧ i < xs.length
        · rw [if_pos h1, if_pos (show k + 1 = i + 1 ∧ i + 1 < xs.length + 1 by omega)]
        · rw [if_neg h1, if_neg (show ¬(k + 1 = i + 1 ∧ i + 1 < xs.length + 1) by omega)]
          rfl

/-- The completion-order fold keeps the slot count. -/
theorem collectFold_length {β : Type} (res : ℕ → β) :
    ∀ (order : List ℕ) (acc : List (Option β)),
      (order.foldl (fun acc j => setAt acc j (res j)) acc).length = acc.length := by
  intro order
  induction order with
  | nil => intro acc; rfl
  | cons j js ih =>
    intro acc
    rw [List.foldl_cons, ih, setAt_length]

/-- Reading a slot after the completion-order fold: slots whose index
completed hold that task's result, the rest are unchanged — whatever the
completion order was. -/
theorem collectFold_get? {β : Type} (res : ℕ → β) :
    ∀ (order : List ℕ) (acc : List (Option β)) (k : ℕ),
      (order.foldl (fun acc j => setAt acc j (res j)) acc).get? k =
        if k ∈ order ∧ k < acc.length then some (some (res k)) else acc.get? k := by
  intro order
  induction order with
  | nil =>
    intro acc k
    simp
  | cons j js ih =>
    intro acc k
    rw [List.foldl_cons, ih (setAt acc j (res j)) k, setAt_length]
    by_cases h1 : k ∈ js ∧ k < acc.length
    · rw [if_pos h1, if_pos ⟨List.mem_cons_of_mem j h1.1, h1.2⟩]
    · rw [if_neg h1, setAt_get? acc j k (res j)]
      by_cases h2 : k = j ∧ j < acc.length
      · rw [if_pos h2, if_pos ⟨h2.1 ▸ List.mem_cons_self j js, h2.1 ▸ h2.2⟩, h2.1]
      · rw [if_neg h2, if_neg ?_]
        intro h3
        rcases List.mem_cons.1 h3.1 with h4 | h4
        · exact h2 ⟨h4, h4 ▸ h3.2⟩
        · exact h1 ⟨h4, h3.2⟩

/-- Reading an all-empty slot list. -/
theorem replicate_none_get? {β : Type} :
    ∀ (n k : ℕ), (List.replicate n (none : Option β)).get? k =
      if k < n then some none else none := by
  intro n
  induction n with
  | zero => intro k; simp
  | succ n ih =>
    intro k
    cases k with
    | zero => simp [List.replicate]
    | succ k =>
      show (List.replicate n (none : Option β)).get? k = _
      rw [ih k]
      by_cases h : k < n
      · rw [if_pos h, if_pos (by omega)]
      · rw [if_neg h, if_neg (by omega)]

/-- When every task index completed, the gathered slots are exactly the
results in task order — independent of the completion order. -/
theorem collectByIndex_eq {β : Type} (res : ℕ → β) (n : ℕ) (order : List ℕ)
    (hcomplete : ∀ j, j < n → j ∈ order) :
    collectByIndex res n order = (List.range n).map (fun j => some (res j)) := by
  apply List.ext_get?
  intro k
  rw [collectByIndex, collectFold_get? res order _ k, List.length_replicate]
  by_cases hk : k < n
  · rw [if_pos ⟨hcomplete k hk, hk⟩, List.get?_map, List.get?_range hk]
    rfl
  · rw [if_neg (fun h => hk h.2), replicate_none_get?, if_neg hk]
    symm
    rw [List.get?_eq_none, List.length_map, List.length_range]
    omega

/-- Extracting slots that are all filled yields the underlying values. -/
theorem filterMap_id_map_some {β : Type} (g : ℕ → β) :
    ∀ l : List ℕ, (l.map (fun j => some (g j))).filterMap id = l.map g := by
  intro l
  induction l with
  | nil => rfl
  | cons x xs ih => simp [ih]

/-- Task results by position agree with the per-item results. -/
theorem range_map_batchTaskResult (f : TenderItem → Except String TenderItemMatch) :
    ∀ (batch : List TenderItem),
      (List.range batch.length).map (fun j => batchTaskResult f batch j) =
        batch.map (fun it => handleItemResult it (f it)) := by
  intro batch
  induction batch with
  | nil => rfl
  | cons it rest ih =>
    rw [List.length_cons, List.range_succ_eq_map, List.map_cons, List.map_map]
    refine List.cons_eq_cons.2 ⟨rfl, ?_⟩
    rw [← ih]
    apply List.map_congr_left
    intro j hj
    rfl


/-- One gathered batch, under a complete completion order, equals the
per-item results in input order. -/
theorem gatherBatch_eq (f : TenderItem → Except String TenderItemMatch)
    (batch : List TenderItem) (order : List ℕ)
    (hcomplete : ∀ j, j < batch.length → j ∈ order) :
    gatherBatch f batch order = batch.map (fun it => handleItemResult it (f it)) := by
  unfold gatherBatch
  rw [collectByIndex_eq _ _ _ hcomplete, filterMap_id_map_some]
  exact range_map_batchTaskResult f batch

/-- The batched parallel loop produces exactly the per-item results in input
order, for any completion orders. -/
theorem processParallelGo_eq (f : TenderItem → Except String TenderItemMatch)
    (orders : ℕ → List ℕ) (batchSize : ℕ) (hbs : 0 < batchSize)
    (hcomplete : ∀ b j, j < batchSize → j ∈ orders b) :
    ∀ (fuel b : ℕ) (l : List TenderItem), l.length ≤ fuel →
      processParallelGo f orders batchSize fuel b l =
        l.map (fun it => handleItemResult it (f it)) := by
  intro fuel
  induction fuel with
  | zero =>
    intro b l hl
    cases l with
    | nil => rfl
    | cons x xs => simp at hl
  | succ fuel ih =>
    intro b l hl
    cases l with
    | nil => rfl
    | cons x xs =>
      show gatherBatch f ((x :: xs).take batchSize) (orders b) ++
          processParallelGo f orders batchSize fuel (b + 1) ((x :: xs).drop batchSize) = _
      rw [gatherBatch_eq f _ _ ?_, ih (b + 1) ((x :: xs).drop batchSize) ?_,
        ← List.map_append, List.take_append_drop]
      · rw [List.length_drop]
        simp at hl ⊢
        omega
      · intro j hj
        refine hcomplete b j ?_
        rw [List.length_take] at hj
        omega

/-- Helper shared by claims C7 and C8: the parallel tender processor's
`item_matches` equals the per-item results in input order, whatever the
batch completion orders were. -/
theorem processTenderParallel_item_matches
    (f : TenderItem → Except String TenderItemMatch) (maxParallelItems : ℕ)
    (orders : ℕ → List ℕ) (items : List TenderItem)
    (hmp : 0 < maxParallelItems)
    (hcomplete : ∀ b j, j < min maxParallelItems items.length → j ∈ orders b) :
    (processTenderParallel f maxParallelItems orders items).item_matches =
      items.map (fun it => handleItemResult it (f it)) := by
  unfold processTenderParallel
  split
  · rename_i h
    rw [List.isEmpty_iff] at h
    rw [h]
    rfl
  · rename_i h
    rw [List.isEmpty_iff] at h
    dsimp only
    refine processParallelGo_eq f orders _ ?_ hcomplete items.length 0 items (le_refl _)
    have : 0 < items.length := List.length_pos.2 h
    omega

/-- Claim C7: in parallel mode the i-th entry of
`TenderMatchingResult.item_matches` is the match result of the i-th input
item — `item_matches` equals the input items mapped through the per-item
matcher — for every completion order the scheduler may produce (the
completion orders `orders` appear only on the left-hand side). -/
theorem claim_C7 (f : TenderItem → Except String TenderItemMatch)
    (maxParallelItems : ℕ) (orders : ℕ → List ℕ) (items : List TenderItem)
    (hmp : 0 < maxParallelItems)
    (hcomplete : ∀ b j, j < min maxParallelItems items.length → j ∈ orders b) :
    (processTenderParallel f maxParallelItems orders items).item_matches =
      items.map (fun it => handleItemResult it (f it)) :=
  processTenderParallel_item_matches f maxParallelItems orders items hmp hcomplete

/-- Items used by the concrete parallel-processing instances. -/
def wItems : List TenderItem :=
  [⟨some 0, some "a", none, none, []⟩,
   ⟨some 1, some "b", none, none, []⟩,
   ⟨some 2, some "c", none, none, []⟩]

/-- An item-level matcher without failures. -/
def wOkf : TenderItem → Except String TenderItemMatch :=
  fun it => .ok (noMatchesResult it)

/-- An item-level matcher raising on the item with id 1. -/
def wErrf : TenderItem → Except String TenderItemMatch :=
  fun it => if it.id == some 1 then .error "boom" else .ok (noMatchesResult it)

/-- A scrambled completion order: the second task of each batch finishes
first. -/
def wOrders : ℕ → List ℕ := fun _ => [1, 0]

/-- Concrete instance of claim C7: three items in batches of two, each batch
completing in reversed order, still yield results in input order. -/
theorem claim_C7_witness :
    (processTenderParallel wOkf 2 wOrders wItems).item_matches =
      wItems.map (fun it => handleItemResult it (wOkf it)) := by
  refine claim_C7 wOkf 2 wOrders wItems (by norm_num) ?_
  intro b j hj
  have hj2 : j < 2 := lt_of_lt_of_le hj (min_le_left _ _)
  interval_cases j <;> simp [wOrders]

/-- Claim C8: if the task of the item at position `i` raises, the parallel
tender result still has one entry per input item, entry `i` is an
error-status entry carrying the message, and every other entry equals the
result its own item produces (unaffected by the failure). -/
theorem claim_C8 (f : TenderItem → Except String TenderItemMatch)
    (maxParallelItems : ℕ) (orders : ℕ → List ℕ) (items : List TenderItem)
    (i : ℕ) (it : TenderItem) (e : String)
    (hmp : 0 < maxParallelItems)
    (hcomplete : ∀ b j, j < min maxParallelItems items.length → j ∈ orders b)
    (hit : items.get? i = some it) (hf : f it = .error e) :
    (processTenderParallel f maxParallelItems orders items).item_matches.length =
      items.length ∧
    (∀ j, (processTenderParallel f maxParallelItems orders items).item_matches.get? j =
      (items.get? j).map (fun x => handleItemResult x (f x))) ∧
    ((processTenderParallel f maxParallelItems orders items).item_matches.get? i).map
      (fun m => m.processing_status) = some "error" ∧
    ((processTenderParallel f maxParallelItems orders items).item_matches.get? i).map
      (fun m => m.error_message) = some (some e) := by
  have heq := processTenderParallel_item_matches f maxParallelItems orders items
    hmp hcomplete
  have hgets : ∀ j, (processTenderParallel f maxParallelItems orders
      items).item_matches.get? j =
      (items.get? j).map (fun x => handleItemResult x (f x)) := by
    intro j
    rw [heq, List.get?_map]
  have hi : (processTenderParallel f maxParallelItems orders items).item_matches.get? i =
      some (handleItemResult it (f it)) := by
    rw [hgets i, hit]
    rfl
  refine ⟨by rw [heq, List.length_map], hgets, ?_, ?_⟩
  · rw [hi, hf]
    rfl
  · rw [hi, hf]
    rfl

/-- Concrete instance of claim C8: the item with id 1 raises, its entry
reports the error, and the sibling entries are the ordinary results. -/
theorem claim_C8_witness :
    (processTenderParallel wErrf 2 wOrders wItems).item_matches.length = 3 ∧
    ((processTenderParallel wErrf 2 wOrders wItems).item_matches.get? 1).map
      (fun m => m.processing_status) = some "error" ∧
    ((processTenderParallel wErrf 2 wOrders wItems).item_matches.get? 1).map
      (fun m => m.error_message) = some (some "boom") ∧
    (processTenderParallel wErrf 2 wOrders wItems).item_matches.get? 0 =
      some (noMatchesResult ⟨some 0, some "a", none, none, []⟩) ∧
    (processTenderParallel wErrf 2 wOrders wItems).item_matches.get? 2 =
      some (noMatchesResult ⟨some 2, some "c", none, none, []⟩) := by
  have hcomplete : ∀ b j, j < min 2 wItems.length → j ∈ wOrders b := by
    intro b j hj
    have hj2 : j < 2 := lt_of_lt_of_le hj (min_le_left _ _)
    interval_cases j <;> simp [wOrders]
  have h := claim_C8 wErrf 2 wOrders wItems 1 ⟨some 1, some "b", none, none, []⟩ "boom"
    (by norm_num) hcomplete rfl rfl
  refine ⟨h.1, h.2.2.1, h.2.2.2, ?_, ?_⟩
  · rw [h.2.1 0]
    rfl
  · rw [h.2.1 2]
    rfl

end TenderMatch
